import Mathlib

/-!
Shallow embedding of `src/models/lib/trackRefs.js` (reference-tracking
delta/action engine and association builders) and of the search-index
adapter (`src/unnamed/part_000`), together with theorems that settle the
frozen claims about them.

JavaScript values relevant to the engine are modelled as follows:
a tracked property's value is either absent (null/undefined), a scalar
string id, or an array of string ids; item states are association lists
from property names to such values (JS objects with string keys); the
actions of the engine perform transactional side effects, which we model
as traces of events, so that temporal and firing properties are statements
about traces.
-/

namespace RC

/-- A JS value stored in a tracked property: `undefined`/`null`, a scalar
string id, or an array of string ids. -/
inductive Value where
  | absent
  | scalar (s : String)
  | arr (l : List String)
deriving DecidableEq, Repr

/-- Embedding of `toArray` from trackRefs.js:
`Array.isArray(e) ? e : e ? [e] : []`.
An array is returned as is; a truthy scalar becomes a singleton (the empty
string is falsy in JS, hence the test); everything else becomes `[]`. -/
def toArray : Value → List String
  | .arr l => l
  | .scalar s => if s = "" then [] else [s]
  | .absent => []

/-- A JS object holding item state: association list from property names to
values; a missing key reads as `undefined` (`Value.absent`). -/
abbrev State := List (String × Value)

/-- Reading `st[e]` on a JS object: first binding wins, missing keys are
`undefined`. -/
def getProp : State → String → Value
  | [], _ => .absent
  | (k, v) :: rest, e => if k = e then v else getProp rest e

/-- Embedding of `hasProp(st, e)`: own-property test on a JS object.
Modelled from the spec: `hasProp` (src/utils/hasProp is not under src/) is
the own-key test used to decide whether a candidate state carries a
property. -/
def hasProp : State → String → Bool
  | [], _ => false
  | (k, _) :: rest, e => if k = e then true else hasProp rest e

/-- Assignment `st[e] = v` on a JS object (overwrite or add the key). -/
def setProp : State → String → Value → State
  | [], e, v => [(e, v)]
  | (k, w) :: rest, e, v => if k = e then (e, v) :: rest else (k, w) :: setProp rest e v

/-- Embedding of the `notIn` predicate used for the id set differences.
Modelled from the spec: `notIn` (src/utils/notIn is not under src/) is the
membership-negation predicate giving "set difference over ids"
(spec section 4.3 step 4). -/
def notIn (arr : List String) (x : String) : Bool := !(arr.contains x)

/-- The polymorphic `Action` variants of trackRefs.js (AppendIDAction,
SetIDAction, RemoveIDAction, UnsetIDAction, DeleteItemAction), each closed
over its target property where the source constructor takes one. -/
inductive Action where
  | appendID (prop : String)
  | setID (prop : String)
  | removeID (prop : String)
  | unsetID (prop : String)
  | deleteItem
deriving DecidableEq, Repr

/-- A JS object mapping property names to action lists (the `AddActions` /
`RemoveActions` objects of the registry): association list, first binding
wins, missing key reads as `undefined` (`none`). -/
abbrev ActionMap := List (String × List Action)

/-- Reading `m[e]` on an action map. -/
def getActs : ActionMap → String → Option (List Action)
  | [], _ => none
  | (k, v) :: rest, e => if k = e then some v else getActs rest e

/-- Overwrite-or-add one key, as one step of `Object.assign`. -/
def setActs : ActionMap → String → List Action → ActionMap
  | [], e, v => [(e, v)]
  | (k, w) :: rest, e, v => if k = e then (e, v) :: rest else (k, w) :: setActs rest e v

/-- Embedding of `Object.assign(base, ...updates)`: later keys overwrite earlier ones. -/
def assignActs (base : ActionMap) (updates : ActionMap) : ActionMap :=
  updates.foldl (fun m kv => setActs m kv.1 kv.2) base

/-- The `refProps` registry object attached to an item class's prototype:
tracked property names with per-property add- and remove-action lists. -/
structure RefProps where
  props : List String
  AddActions : ActionMap
  RemoveActions : ActionMap
deriving Repr

/-- Errors a declaration-time call can raise: `InvalidParameters` thrown by
`connect`, or the TypeError raised by dereferencing
`prev.AddActions[e].concat` when `prev.AddActions[e]` is `undefined`. -/
inductive JsError where
  | invalidParameters
  | typeError
deriving DecidableEq, Repr

/-- The per-property merge `props.map((e) => ({[e]: prev.XxxActions[e].concat(acts)}))`
performed by `trackRefs` when a prior registry exists: for each listed
property, reads the prior action list and appends the new actions; a
property with no prior list makes the whole call throw
(`undefined.concat`). -/
def mergeActs (prevMap : ActionMap) (acts : List Action) :
    List String → Except JsError ActionMap
  | [] => .ok []
  | e :: rest =>
    match getActs prevMap e with
    | none => .error .typeError
    | some l =>
      match mergeActs prevMap acts rest with
      | .error err => .error err
      | .ok tail => .ok ((e, l ++ acts) :: tail)

/-- Embedding of `trackRefs(ItemClass, props, addActions, removeActions)` from
trackRefs.js, as a function from the class's prior registry to the registry
it installs (or the error it throws).  Note the source's fallback in the
`RemoveActions` construction: with no prior registry it uses `addActions`,
not `removeActions` (`prev ? prev.RemoveActions[e].concat(removeActions) : addActions`). -/
def trackRefs (prev : Option RefProps) (props : List String)
    (addActions removeActions : List Action) : Except JsError RefProps :=
  match prev with
  | none =>
    .ok { props := props
          AddActions := props.map (fun e => (e, addActions))
          RemoveActions := props.map (fun e => (e, addActions)) }
  | some prev =>
    match mergeActs prev.AddActions addActions props with
    | .error err => .error err
    | .ok addMap =>
      match mergeActs prev.RemoveActions removeActions props with
      | .error err => .error err
      | .ok removeMap =>
        .ok { props := prev.props ++ props
              AddActions := assignActs prev.AddActions addMap
              RemoveActions := assignActs prev.RemoveActions removeMap }

/-- Result of `getItemFromStore(refModel.ref(id))` combined with the
`isLocalOnly()` test: `miss` when the store returns null, otherwise
`found localOnly`.
Modelled from the spec: the in-memory item store (`./item_store` is not
under src/) is "an in-memory local item cache consulted ... during
add-action resolution"; it is a parameter of the engine here, indexed by
the tracked property (which fixes the resolved reference model) and id. -/
inductive StoreResult where
  | miss
  | found (localOnly : Bool)
deriving DecidableEq, Repr

/-- One observable transactional side effect of the delta engine:
running a remove-action, saving a pending local-only target
(`created.save(txn)`), or running an add-action; each is tagged with the
tracked property and the reference id it concerns. -/
inductive Event where
  | runRemove (prop : String) (id : String) (action : Action)
  | save (prop : String) (id : String)
  | runAdd (prop : String) (id : String) (action : Action)
deriving DecidableEq, Repr

/-- The facets of an item that the delta engine consults:
`item[refProps]` (the registry), `item.didUpdate(e)` (dirty tracking),
the state `item.read(txn)` returns (the persisted state, as seen through
the open transaction), and the in-memory item store lookup.
`didUpdate`, `read` and the store are host interfaces (spec section 6),
modelled as fields. -/
structure Item where
  refProps_ : Option RefProps
  didUpdate : String → Bool
  persisted : State
  store : String → String → StoreResult

/-- Embedding of `added = newValue.filter(notIn(oldValue))` with both sides normalized
by `toArray` — the ids in the new value and not in the old. -/
def addedIds (oldV newV : Value) : List String :=
  (toArray newV).filter (notIn (toArray oldV))

/-- Embedding of `removed = oldValue.filter(notIn(newValue))` with both sides normalized
by `toArray` — the ids in the old value and not in the new. -/
def removedIds (oldV newV : Value) : List String :=
  (toArray oldV).filter (notIn (toArray newV))

/-- Trace of `RemoveActions[e]?.map?.(action => action.run(txn, item, refItem))`
for one removed id: each registered remove-action runs, in registration
order; a missing action list runs nothing (optional chaining). -/
def processRemovedId (rp : RefProps) (e id : String) : List Event :=
  ((getActs rp.RemoveActions e).getD []).map (Event.runRemove e id)

/-- Trace of the per-added-id closure: if the store holds a pending
local-only instance for the reference it is saved first
(`await created.save(txn)`), then every registered add-action runs in
registration order. -/
def processAddedId (store : String → String → StoreResult) (rp : RefProps)
    (e id : String) : List Event :=
  (match store e id with
   | .found true => [Event.save e id]
   | _ => []) ++ ((getActs rp.AddActions e).getD []).map (Event.runAdd e id)

/-- Trace of the per-property closure of `onRefsUpdateItem`: skip when this
is an update and the property is not dirty; otherwise compute the id set
differences between the normalized new and persisted values, process every
removed id (that block is awaited first), then every added id. -/
def processProp (item : Item) (newState : State) (isUpdate : Bool)
    (rp : RefProps) (e : String) : List Event :=
  if isUpdate && !(item.didUpdate e) then []
  else
    ((removedIds (getProp item.persisted e) (getProp newState e)).map
        (processRemovedId rp e)).flatten ++
      ((addedIds (getProp item.persisted e) (getProp newState e)).map
        (processAddedId item.store rp e)).flatten

/-- Embedding of `onRefsUpdateItem(item, txn, newState, isUpdate)` from trackRefs.js as
a trace of events: no-op without a registry, otherwise the per-property
closures over `props` (their side effects; cross-id interleaving is not
observable through membership statements). -/
def onRefsUpdateItem (item : Item) (newState : State) (isUpdate : Bool) :
    List Event :=
  match item.refProps_ with
  | none => []
  | some rp => (rp.props.map (processProp item newState isUpdate rp)).flatten

/-- Embedding of `onRefsAddItem(item, txn, newState)`:
`onRefsUpdateItem(item, txn, newState, false)`. -/
def onRefsAddItem (item : Item) (newState : State) : List Event :=
  onRefsUpdateItem item newState false

/-- Embedding of `onRefsDeleteItem(item, txn)`:
`onRefsUpdateItem(item, txn, None, false)` where `None` (src/utils/none is
not under src/) is modelled from the spec as the empty frozen object — the
"empty/absent state for deletion", every property reading `undefined`. -/
def onRefsDeleteItem (item : Item) : List Event :=
  onRefsUpdateItem item ([] : State) false

/-- The facets of a model that `connect` consults: whether
`model.Meta[prop].type === "array"` and the registry of the model's item
class (`model._Item.prototype[refProps]`).  `Meta` and `_Item` live in the
host model layer (spec section 6); the `refModel` assignments `connect`
performs on `Meta` are bookkeeping for later target resolution and do not
affect registries, so they are not tracked here. -/
structure Model where
  meta : String → Bool
  registry : Option RefProps

/-- Embedding of `isTwoWay && model2.Meta[prop2].type === "array"` from `connect`: with
no reciprocal property the short-circuit makes it false without a `Meta`
lookup. -/
def reciprocalIsArray (model2 : Model) (prop2 : Option String) : Bool :=
  match prop2 with
  | some p2 => model2.meta p2
  | none => false

/-- The add-action list `connect` builds:
`[isArray2 ? new AppendIDAction(prop2) : isTwoWay ? new SetIDAction(prop2) : null].filter(Boolean)`. -/
def connectAddActions (model2 : Model) (prop2 : Option String) : List Action :=
  match prop2 with
  | some p2 => if model2.meta p2 then [Action.appendID p2] else [Action.setID p2]
  | none => []

/-- The remove-action list `connect` builds:
`[deleteOnRemove ? new DeleteItemAction() : isTwoWay ? new UnsetIDAction(prop2) : null].filter(Boolean)`. -/
def connectRemoveActions (prop2 : Option String) (deleteOnRemove : Bool) :
    List Action :=
  if deleteOnRemove then [Action.deleteItem]
  else
    match prop2 with
    | some p2 => [Action.unsetID p2]
    | none => []

/-- Final registries after a `connect` call, together with the error it
threw, if any (registrations performed before a throw persist, as JS
prototype mutations do). -/
structure ConnectResult where
  reg1 : Option RefProps
  reg2 : Option RefProps
  error : Option JsError
deriving Repr

/-- Embedding of `connect(model1, prop1, model2, prop2, deleteOnRemove, noRecurse)` from
trackRefs.js: throws `InvalidParameters` when the reciprocal property is
array-typed and `deleteOnRemove` is set, before registering anything;
otherwise registers on model1 via `trackRefs`, and unless `noRecurse`,
performs the reciprocal registration — the recursive call
`connect(model2, prop2, model1, prop1, false, true)` inlined at its
`noRecurse = true, deleteOnRemove = false` instance. -/
def connect (model1 : Model) (prop1 : String) (model2 : Model)
    (prop2 : Option String) (deleteOnRemove : Bool) (noRecurse : Bool) :
    ConnectResult :=
  if reciprocalIsArray model2 prop2 && deleteOnRemove then
    { reg1 := model1.registry, reg2 := model2.registry
      error := some JsError.invalidParameters }
  else
    match trackRefs model1.registry [prop1] (connectAddActions model2 prop2)
        (connectRemoveActions prop2 deleteOnRemove) with
    | .error err =>
      { reg1 := model1.registry, reg2 := model2.registry, error := some err }
    | .ok rp1 =>
      match prop2 with
      | none => { reg1 := some rp1, reg2 := model2.registry, error := none }
      | some p2 =>
        if noRecurse then
          { reg1 := some rp1, reg2 := model2.registry, error := none }
        else
          match trackRefs model2.registry [p2]
              (connectAddActions model1 (some prop1))
              (connectRemoveActions (some prop1) false) with
          | .error err =>
            { reg1 := some rp1, reg2 := model2.registry, error := some err }
          | .ok rp2 => { reg1 := some rp1, reg2 := some rp2, error := none }

/-- Embedding of `belongsToMany(model1, prop1, model2, prop2, deleteOnRemove)` from
trackRefs.js, as its effect on model1's registry: one `trackRefs` call with
add-actions `[new SetIDAction(prop2)]` and remove-actions
`[deleteOnRemove ? new DeleteItemAction() : new RemoveIDAction(prop2)]`
(the `model2.Meta[prop2].refModel = model1` assignment is Meta bookkeeping,
not tracked here). -/
def belongsToMany (registry1 : Option RefProps) (prop1 prop2 : String)
    (deleteOnRemove : Bool) : Except JsError RefProps :=
  trackRefs registry1 [prop1] [Action.setID prop2]
    [if deleteOnRemove then Action.deleteItem else Action.removeID prop2]

/-- A search index entry: the `tokens` array built by `createIndexEntry`. -/
structure IndexEntry where
  tokens : List String
deriving DecidableEq, Repr

/-- Embedding of `String(state[e] ?? "")` in JS: null/undefined becomes `""`, a string
is itself, an array stringifies to its comma-joined elements. -/
def valueToString : Value → String
  | .absent => ""
  | .scalar s => s
  | .arr l => String.intercalate "," l

/-- Keep-first deduplication, with the elements already kept as the
accumulator. -/
def dedupAux : List String → List String → List String
  | _, [] => []
  | seen, x :: xs =>
    if seen.contains x then dedupAux seen xs
    else x :: dedupAux (x :: seen) xs

/-- Keep-first deduplication.
Modelled from the spec: `uniq` (src/utils/uniq is not under src/) is the
`filter` callback realizing "deduplicate against previously accumulated
tokens" — it keeps the first occurrence of each element. -/
def dedupKeepFirst (l : List String) : List String := dedupAux [] l

/-- Embedding of `createIndexEntry(props, item, state, prev)` from the search adapter:
`parseQuery(props.map((e) => String(state[e] ?? "")).join(" ")).flat().concat(prev ? prev.tokens : []).filter(uniq)`.
The external tokenizer `parseQuery` (spec section 6: "tokenize(text) ->
sequence of sequence of token") is a parameter; the unused `item` argument
is dropped. -/
def createIndexEntry (tokenize : String → List (List String))
    (props : List String) (state : State) (prev : Option IndexEntry) :
    IndexEntry :=
  { tokens :=
      dedupKeepFirst
        ((tokenize (String.intercalate " "
            (props.map (fun e => valueToString (getProp state e))))).flatten ++
          (match prev with
           | some p => p.tokens
           | none => [])) }

/-- The `searchIndexProps` registry attached to an item class's prototype
by `indexForSearch`: accumulated indexed property names and the chained
indexer closure (whose `item` argument is unused and dropped). -/
structure SearchProps where
  props : List String
  indexer : State → IndexEntry

/-- Embedding of `indexForSearch(ItemClass, props, createIndex = createIndexEntry)` with
the default `createIndex`, as a function from the prior registry to the
one it installs: properties concatenate and the new indexer folds the
prior indexer's tokens in via `prev?.indexer?.(item, state)`. -/
def indexForSearch (tokenize : String → List (List String))
    (prev : Option SearchProps) (props : List String) : SearchProps :=
  { props :=
      match prev with
      | some p => p.props ++ props
      | none => props
    indexer := fun state =>
      createIndexEntry tokenize props state
        (prev.map (fun p => p.indexer state)) }

/-- The facets of an item the search adapter consults: the
`searchIndexProps` registry, dirty tracking, and the persisted state
returned by `item.read(txn)`. -/
structure SearchItem where
  searchIndexProps_ : Option SearchProps
  didUpdate : String → Bool
  persisted : State

/-- The merge loop of `updateInTxn`: starting from `x = { ...newState }`,
for each indexed property absent from `x`, fill in the previously
persisted value (`if (!hasProp(x, e)) x[e] = prevState[e]`). -/
def mergeState (props : List String) (newState prevState : State) : State :=
  props.foldl
    (fun x e => if hasProp x e then x else setProp x e (getProp prevState e))
    newState

/-- Embedding of `updateInTxn(txn, item, newState)` from the search adapter, as the
index entry it upserts: `none` when the class has no search registry or no
indexed property is dirty; otherwise the entry produced by the registered
indexer on the merged state (the `SearchIndex.getOrCreate(...).set`
external write is modelled as returning the entry written; the entry is
keyed by `normalizedId` of the item's unique name). -/
def updateInTxn (item : SearchItem) (newState : State) : Option IndexEntry :=
  match item.searchIndexProps_ with
  | none => none
  | some sp =>
    if sp.props.any item.didUpdate then
      some (sp.indexer (mergeState sp.props newState item.persisted))
    else none

/-- Embedding of `_id` from the search adapter:
`item.uniqueName().replace(/\//g, "^")` — the normalized identity string
keying the Search Index Entry. -/
def normalizedId (uniqueName : String) : String :=
  String.map (fun c => if c = '/' then '^' else c) uniqueName

/-! ### Helper lemmas about the delta engine -/

theorem notIn_eq_true_iff (l : List String) (x : String) :
    notIn l x = true ↔ x ∉ l := by
  simp [notIn, List.elem_iff]

theorem mem_addedIds {oldV newV : Value} {x : String} :
    x ∈ addedIds oldV newV ↔ x ∈ toArray newV ∧ x ∉ toArray oldV := by
  simp [addedIds, List.mem_filter, notIn_eq_true_iff]

theorem mem_removedIds {oldV newV : Value} {x : String} :
    x ∈ removedIds oldV newV ↔ x ∈ toArray oldV ∧ x ∉ toArray newV := by
  simp [removedIds, List.mem_filter, notIn_eq_true_iff]

theorem mem_processRemovedId {rp : RefProps} {e id : String} {ev : Event} :
    ev ∈ processRemovedId rp e id ↔
      ∃ a ∈ (getActs rp.RemoveActions e).getD [], ev = Event.runRemove e id a := by
  simp only [processRemovedId, List.mem_map]
  constructor
  · rintro ⟨a, ha, rfl⟩; exact ⟨a, ha, rfl⟩
  · rintro ⟨a, ha, rfl⟩; exact ⟨a, ha, rfl⟩

theorem mem_processAddedId {store : String → String → StoreResult}
    {rp : RefProps} {e id : String} {ev : Event} :
    ev ∈ processAddedId store rp e id ↔
      (ev = Event.save e id ∧ store e id = StoreResult.found true) ∨
        ∃ a ∈ (getActs rp.AddActions e).getD [], ev = Event.runAdd e id a := by
  unfold processAddedId
  rcases h : store e id with _ | lo
  · simp [List.mem_map, eq_comm]
  · cases lo
    · simp [List.mem_map, eq_comm]
    · simp [List.mem_map, eq_comm]

theorem mem_processProp {item : Item} {newState : State} {isUpdate : Bool}
    {rp : RefProps} {e : String} {ev : Event} :
    ev ∈ processProp item newState isUpdate rp e ↔
      ¬(isUpdate = true ∧ item.didUpdate e = false) ∧
        ((∃ id ∈ removedIds (getProp item.persisted e) (getProp newState e),
            ev ∈ processRemovedId rp e id) ∨
          (∃ id ∈ addedIds (getProp item.persisted e) (getProp newState e),
            ev ∈ processAddedId item.store rp e id)) := by
  unfold processProp
  by_cases hu : (isUpdate && !(item.didUpdate e)) = true
  · rw [if_pos hu]
    rw [Bool.and_eq_true, Bool.not_eq_true'] at hu
    simp only [List.not_mem_nil, false_iff, not_and]
    exact fun hcon => absurd hu.2 (hcon hu.1)
  · rw [if_neg hu]
    have hA : ¬(isUpdate = true ∧ item.didUpdate e = false) := by
      rintro ⟨h1, h2⟩
      exact hu (by simp [h1, h2])
    simp only [List.mem_append, List.mem_flatten, List.mem_map]
    constructor
    · rintro (⟨l, ⟨id, hid, rfl⟩, hev⟩ | ⟨l, ⟨id, hid, rfl⟩, hev⟩)
      · exact ⟨hA, Or.inl ⟨id, hid, hev⟩⟩
      · exact ⟨hA, Or.inr ⟨id, hid, hev⟩⟩
    · rintro ⟨-, ⟨id, hid, hev⟩ | ⟨id, hid, hev⟩⟩
      · exact Or.inl ⟨_, ⟨id, hid, rfl⟩, hev⟩
      · exact Or.inr ⟨_, ⟨id, hid, rfl⟩, hev⟩

theorem mem_onRefsUpdateItem {item : Item} {newState : State}
    {isUpdate : Bool} {ev : Event} :
    ev ∈ onRefsUpdateItem item newState isUpdate ↔
      ∃ rp, item.refProps_ = some rp ∧
        ∃ e ∈ rp.props, ev ∈ processProp item newState isUpdate rp e := by
  unfold onRefsUpdateItem
  rcases h : item.refProps_ with _ | rp
  · simp
  · simp only [List.mem_flatten, List.mem_map]
    constructor
    · rintro ⟨l, ⟨e, he, rfl⟩, hev⟩; exact ⟨rp, rfl, e, he, hev⟩
    · rintro ⟨rp', hrp, e, he, hev⟩
      cases Option.some.inj hrp
      exact ⟨_, ⟨e, he, rfl⟩, hev⟩

/-- Every event in the engine's trace comes from processing some tracked
property that passed the dirty filter, and is a remove-action on a removed
id, a save of a pending local-only added target, or an add-action on an
added id. -/
theorem onRefsUpdateItem_event_classify {item : Item} {newState : State}
    {isUpdate : Bool} {ev : Event}
    (h : ev ∈ onRefsUpdateItem item newState isUpdate) :
    ∃ rp, item.refProps_ = some rp ∧ ∃ e, e ∈ rp.props ∧
      ¬(isUpdate = true ∧ item.didUpdate e = false) ∧
      ((∃ id a, ev = Event.runRemove e id a ∧
          id ∈ removedIds (getProp item.persisted e) (getProp newState e) ∧
          a ∈ (getActs rp.RemoveActions e).getD []) ∨
        (∃ id, ev = Event.save e id ∧
          id ∈ addedIds (getProp item.persisted e) (getProp newState e) ∧
          item.store e id = StoreResult.found true) ∨
        (∃ id a, ev = Event.runAdd e id a ∧
          id ∈ addedIds (getProp item.persisted e) (getProp newState e) ∧
          a ∈ (getActs rp.AddActions e).getD [])) := by
  rcases mem_onRefsUpdateItem.mp h with ⟨rp, hrp, e, he, hev⟩
  rcases mem_processProp.mp hev with ⟨hdirty, hcase⟩
  refine ⟨rp, hrp, e, he, hdirty, ?_⟩
  rcases hcase with ⟨id, hid, hmem⟩ | ⟨id, hid, hmem⟩
  · rcases mem_processRemovedId.mp hmem with ⟨a, ha, rfl⟩
    exact Or.inl ⟨id, a, rfl, hid, ha⟩
  · rcases mem_processAddedId.mp hmem with ⟨rfl, hst⟩ | ⟨a, ha, rfl⟩
    · exact Or.inr (Or.inl ⟨id, rfl, hid, hst⟩)
    · exact Or.inr (Or.inr ⟨id, a, rfl, hid, ha⟩)

/-- Introduction rule: an add-action event fires for every added id of a
tracked property passing the dirty filter. -/
theorem runAdd_mem_onRefsUpdateItem {item : Item} {newState : State}
    {isUpdate : Bool} {rp : RefProps} {e x : String} {a : Action}
    (hrp : item.refProps_ = some rp) (he : e ∈ rp.props)
    (hdirty : ¬(isUpdate = true ∧ item.didUpdate e = false))
    (hx : x ∈ addedIds (getProp item.persisted e) (getProp newState e))
    (ha : a ∈ (getActs rp.AddActions e).getD []) :
    Event.runAdd e x a ∈ onRefsUpdateItem item newState isUpdate :=
  mem_onRefsUpdateItem.mpr ⟨rp, hrp, e, he, mem_processProp.mpr
    ⟨hdirty, Or.inr ⟨x, hx, mem_processAddedId.mpr (Or.inr ⟨a, ha, rfl⟩)⟩⟩⟩

/-- Introduction rule: a remove-action event fires for every removed id of
a tracked property passing the dirty filter. -/
theorem runRemove_mem_onRefsUpdateItem {item : Item} {newState : State}
    {isUpdate : Bool} {rp : RefProps} {e x : String} {a : Action}
    (hrp : item.refProps_ = some rp) (he : e ∈ rp.props)
    (hdirty : ¬(isUpdate = true ∧ item.didUpdate e = false))
    (hx : x ∈ removedIds (getProp item.persisted e) (getProp newState e))
    (ha : a ∈ (getActs rp.RemoveActions e).getD []) :
    Event.runRemove e x a ∈ onRefsUpdateItem item newState isUpdate :=
  mem_onRefsUpdateItem.mpr ⟨rp, hrp, e, he, mem_processProp.mpr
    ⟨hdirty, Or.inl ⟨x, hx, mem_processRemovedId.mpr ⟨a, ha, rfl⟩⟩⟩⟩

theorem addedIds_absent_left (v : Value) : addedIds Value.absent v = toArray v := by
  simp only [addedIds, toArray]
  exact List.filter_eq_self.mpr (fun a _ => rfl)

theorem removedIds_absent_right (v : Value) :
    removedIds v Value.absent = toArray v := by
  simp only [removedIds, toArray]
  exact List.filter_eq_self.mpr (fun a _ => rfl)

theorem removedIds_absent_left (v : Value) : removedIds Value.absent v = [] := rfl

theorem addedIds_absent_right (v : Value) : addedIds v Value.absent = [] := rfl

theorem getProp_nil (e : String) : getProp ([] : State) e = Value.absent := rfl

/-! ### The claims -/

/-- C1: for every tracked property, with old and new values normalized by
`toArray` (absent → `[]`, scalar → singleton, array → itself),
`onRefsUpdateItem` computes `added = newIds − oldIds` and
`removed = oldIds − newIds` as set differences over ids, and an id present
in both the old and the new value triggers neither add-actions nor
remove-actions in the engine's trace. -/
theorem onRefsUpdateItem_delta_is_set_difference (oldV newV : Value) (x : String) :
    ((x ∈ addedIds oldV newV ↔ x ∈ toArray newV ∧ x ∉ toArray oldV) ∧
      (x ∈ removedIds oldV newV ↔ x ∈ toArray oldV ∧ x ∉ toArray newV)) ∧
    ∀ (item : Item) (newState : State) (isUpdate : Bool) (e : String) (a : Action),
      x ∈ toArray (getProp item.persisted e) →
      x ∈ toArray (getProp newState e) →
      Event.runAdd e x a ∉ onRefsUpdateItem item newState isUpdate ∧
      Event.runRemove e x a ∉ onRefsUpdateItem item newState isUpdate := by
  refine ⟨⟨mem_addedIds, mem_removedIds⟩, ?_⟩
  intro item ns u e a hold hnew
  constructor
  · intro hmem
    rcases onRefsUpdateItem_event_classify hmem with ⟨rp, -, e', -, -, hcase⟩
    rcases hcase with ⟨id, a', heq, -, -⟩ | ⟨id, heq, -, -⟩ | ⟨id, a', heq, hid, -⟩
    · exact Event.noConfusion heq
    · exact Event.noConfusion heq
    · injection heq with h1 h2 h3
      subst h1; subst h2
      exact (mem_addedIds.mp hid).2 hold
  · intro hmem
    rcases onRefsUpdateItem_event_classify hmem with ⟨rp, -, e', -, -, hcase⟩
    rcases hcase with ⟨id, a', heq, hid, -⟩ | ⟨id, heq, -, -⟩ | ⟨id, a', heq, -, -⟩
    · injection heq with h1 h2 h3
      subst h1; subst h2
      exact (mem_removedIds.mp hid).2 hnew
    · exact Event.noConfusion heq
    · exact Event.noConfusion heq

/-- Witness for C1 at a concrete item: id "x" is kept in the array-valued
property "p" across the update, so neither its add- nor its remove-action
event appears in the trace. -/
theorem onRefsUpdateItem_delta_is_set_difference_witness :
    Event.runAdd "p" "x" (Action.setID "q") ∉
        onRefsUpdateItem
          {
            refProps_ := some {
              props := ["p"],
              AddActions := [("p", [Action.setID "q"])],
              RemoveActions := [("p", [Action.setID "q"])] },
            didUpdate := fun _ => true,
            persisted := [("p", Value.scalar "x")],
            store := fun _ _ => StoreResult.miss }
          [("p", Value.arr ["x", "y"])] true ∧
      Event.runRemove "p" "x" (Action.setID "q") ∉
        onRefsUpdateItem
          {
            refProps_ := some {
              props := ["p"],
              AddActions := [("p", [Action.setID "q"])],
              RemoveActions := [("p", [Action.setID "q"])] },
            didUpdate := fun _ => true,
            persisted := [("p", Value.scalar "x")],
            store := fun _ _ => StoreResult.miss }
          [("p", Value.arr ["x", "y"])] true :=
  (onRefsUpdateItem_delta_is_set_difference (Value.scalar "x")
      (Value.arr ["x", "y"]) "x").2
    {
      refProps_ := some {
        props := ["p"],
        AddActions := [("p", [Action.setID "q"])],
        RemoveActions := [("p", [Action.setID "q"])] },
      didUpdate := fun _ => true,
      persisted := [("p", Value.scalar "x")],
      store := fun _ _ => StoreResult.miss }
    [("p", Value.arr ["x", "y"])] true "p" (Action.setID "q")
    (by decide) (by decide)

/-- C3: with the persisted (prior) state fully empty — what `item.read`
returns for a not-yet-persisted item on a fresh add — `onRefsAddItem`
makes every id in the new value of every tracked property fire every
registered add-action, and no remove-action event ever appears in the
trace of an add. -/
theorem onRefsAddItem_treats_prior_state_empty :
    ∀ (item : Item) (newState : State) (rp : RefProps),
      (∀ e, getProp item.persisted e = Value.absent) →
      item.refProps_ = some rp →
      (∀ ev ∈ onRefsAddItem item newState,
        ∀ (e id : String) (a : Action), ev ≠ Event.runRemove e id a) ∧
      (∀ e ∈ rp.props, ∀ id ∈ toArray (getProp newState e),
        ∀ a ∈ (getActs rp.AddActions e).getD [],
          Event.runAdd e id a ∈ onRefsAddItem item newState) := by
  intro item newState rp hempty hrp
  constructor
  · intro ev hev e id a heq
    subst heq
    rcases onRefsUpdateItem_event_classify hev with ⟨rp', -, e', -, -, hcase⟩
    rcases hcase with ⟨id', a', heq, hid, -⟩ | ⟨id', heq, -, -⟩ | ⟨id', a', heq, -, -⟩
    · simp only [hempty e', removedIds_absent_left] at hid
      exact List.not_mem_nil _ hid
    · exact Event.noConfusion heq
    · exact Event.noConfusion heq
  · intro e he id hid a ha
    refine runAdd_mem_onRefsUpdateItem hrp he (by simp) ?_ ha
    rw [hempty e, addedIds_absent_left]
    exact hid

/-- Witness for C3: a fresh add of `{p: [x]}` on an item with empty
persisted state fires the add-action for id "x" and its trace has no
remove-action events. -/
theorem onRefsAddItem_treats_prior_state_empty_witness :
    (∀ ev ∈ onRefsAddItem {
        refProps_ := some {
          props := ["p"],
          AddActions := [("p", [Action.appendID "q"])],
          RemoveActions := [("p", [Action.unsetID "q"])] },
        didUpdate := fun _ => false,
        persisted := [],
        store := fun _ _ => StoreResult.miss }
        [("p", Value.arr ["x"])],
      ∀ (e id : String) (a : Action), ev ≠ Event.runRemove e id a) ∧
    Event.runAdd "p" "x" (Action.appendID "q") ∈ onRefsAddItem {
        refProps_ := some {
          props := ["p"],
          AddActions := [("p", [Action.appendID "q"])],
          RemoveActions := [("p", [Action.unsetID "q"])] },
        didUpdate := fun _ => false,
        persisted := [],
        store := fun _ _ => StoreResult.miss }
        [("p", Value.arr ["x"])] := by
  have h := onRefsAddItem_treats_prior_state_empty
    {
      refProps_ := some {
        props := ["p"],
        AddActions := [("p", [Action.appendID "q"])],
        RemoveActions := [("p", [Action.unsetID "q"])] },
      didUpdate := fun _ => false,
      persisted := [],
      store := fun _ _ => StoreResult.miss }
    [("p", Value.arr ["x"])]
    {
      props := ["p"],
      AddActions := [("p", [Action.appendID "q"])],
      RemoveActions := [("p", [Action.unsetID "q"])] }
    (fun _ => rfl) rfl
  exact ⟨h.1, h.2 "p" (by decide) "x" (by decide) (Action.appendID "q") (by decide)⟩

/-- C4: `onRefsDeleteItem(item, txn)` is literally
`onRefsUpdateItem(item, txn, None, false)` — the update with the
empty/absent new state and the dirty-set filter disabled — and on every
registry it processes every tracked property, firing a remove-action event
exactly for the ids in the current persisted value (each with each
registered remove-action) and firing nothing else. -/
theorem onRefsDeleteItem_refines_empty_update :
    (∀ item : Item, onRefsDeleteItem item = onRefsUpdateItem item [] false) ∧
    ∀ (item : Item) (rp : RefProps), item.refProps_ = some rp →
      (∀ ev ∈ onRefsDeleteItem item,
        ∃ e id a, ev = Event.runRemove e id a) ∧
      (∀ e ∈ rp.props, ∀ (id : String) (a : Action),
        (Event.runRemove e id a ∈ onRefsDeleteItem item ↔
          id ∈ toArray (getProp item.persisted e) ∧
            a ∈ (getActs rp.RemoveActions e).getD [])) := by
  refine ⟨fun _ => rfl, ?_⟩
  intro item rp hrp
  constructor
  · intro ev hev
    rcases onRefsUpdateItem_event_classify hev with ⟨rp', -, e', -, -, hcase⟩
    rcases hcase with ⟨id', a', heq, -, -⟩ | ⟨id', heq, hid, -⟩ | ⟨id', a', heq, hid, -⟩
    · exact ⟨e', id', a', heq⟩
    · simp only [getProp_nil, addedIds_absent_right] at hid
      exact absurd hid (List.not_mem_nil _)
    · simp only [getProp_nil, addedIds_absent_right] at hid
      exact absurd hid (List.not_mem_nil _)
  · intro e he id a
    constructor
    · intro hev
      rcases onRefsUpdateItem_event_classify hev with ⟨rp', hrp', e', -, -, hcase⟩
      rw [hrp] at hrp'
      cases Option.some.inj hrp'
      rcases hcase with ⟨id', a', heq, hid, ha⟩ | ⟨id', heq, -, -⟩ | ⟨id', a', heq, -, -⟩
      · injection heq with h1 h2 h3
        subst h1; subst h2; subst h3
        simp only [getProp_nil, removedIds_absent_right] at hid
        exact ⟨hid, ha⟩
      · exact Event.noConfusion heq
      · exact Event.noConfusion heq
    · rintro ⟨hid, ha⟩
      refine runRemove_mem_onRefsUpdateItem hrp he (by simp) ?_ ha
      simp only [getProp_nil, removedIds_absent_right]
      exact hid

/-- Witness for C4: deleting an item whose persisted state is `{p: [x]}`
fires exactly the remove-action for id "x" and nothing for an id that is
not persisted. -/
theorem onRefsDeleteItem_refines_empty_update_witness :
    Event.runRemove "p" "x" (Action.unsetID "q") ∈ onRefsDeleteItem {
        refProps_ := some {
          props := ["p"],
          AddActions := [("p", [Action.appendID "q"])],
          RemoveActions := [("p", [Action.unsetID "q"])] },
        didUpdate := fun _ => false,
        persisted := [("p", Value.arr ["x"])],
        store := fun _ _ => StoreResult.miss } ∧
    Event.runRemove "p" "z" (Action.unsetID "q") ∉ onRefsDeleteItem {
        refProps_ := some {
          props := ["p"],
          AddActions := [("p", [Action.appendID "q"])],
          RemoveActions := [("p", [Action.unsetID "q"])] },
        didUpdate := fun _ => false,
        persisted := [("p", Value.arr ["x"])],
        store := fun _ _ => StoreResult.miss } := by
  have h := (onRefsDeleteItem_refines_empty_update.2
    {
      refProps_ := some {
        props := ["p"],
        AddActions := [("p", [Action.appendID "q"])],
        RemoveActions := [("p", [Action.unsetID "q"])] },
      didUpdate := fun _ => false,
      persisted := [("p", Value.arr ["x"])],
      store := fun _ _ => StoreResult.miss }
    {
      props := ["p"],
      AddActions := [("p", [Action.appendID "q"])],
      RemoveActions := [("p", [Action.unsetID "q"])] }
    rfl).2 "p" (by decide)
  constructor
  · exact (h "x" (Action.unsetID "q")).mpr (by decide)
  · intro hmem
    have := (h "z" (Action.unsetID "q")).mp hmem
    exact absurd this.1 (by decide)

/-- C8: when the in-memory item store resolves an added id to a pending
local-only (created but unsaved) instance, the per-id closure of the delta
engine emits the save of that instance strictly before every registered
add-action event for that id: no add-action runs against a still-unpersisted
local-only target. -/
theorem save_precedes_add_actions :
    ∀ (store : String → String → StoreResult) (rp : RefProps) (e id : String),
      store e id = StoreResult.found true →
      Event.save e id ∈ processAddedId store rp e id ∧
      ∀ (k : Nat) (a : Action),
        (processAddedId store rp e id).get? k = some (Event.runAdd e id a) →
        ∃ j, j < k ∧
          (processAddedId store rp e id).get? j = some (Event.save e id) := by
  intro store rp e id h
  have hform : processAddedId store rp e id =
      Event.save e id ::
        ((getActs rp.AddActions e).getD []).map (Event.runAdd e id) := by
    unfold processAddedId
    rw [h]
    rfl
  constructor
  · rw [hform]
    exact List.mem_cons_self _ _
  · intro k a hk
    rw [hform] at hk
    match k, hk with
    | 0, hk => exact absurd (Option.some.inj hk) (by simp)
    | k + 1, hk => exact ⟨0, Nat.succ_pos k, by rw [hform]; rfl⟩

/-- Witness for C8: with a local-only pending target for id "x", the save
event is in the per-id trace and the add-action at position 1 has the save
at position 0 before it. -/
theorem save_precedes_add_actions_witness :
    Event.save "p" "x" ∈ processAddedId (fun _ _ => StoreResult.found true)
      {
        props := ["p"],
        AddActions := [("p", [Action.setID "q"])],
        RemoveActions := [("p", [])] } "p" "x" ∧
    ∃ j, j < 1 ∧
      (processAddedId (fun _ _ => StoreResult.found true)
        {
          props := ["p"],
          AddActions := [("p", [Action.setID "q"])],
          RemoveActions := [("p", [])] } "p" "x").get? j =
        some (Event.save "p" "x") := by
  have h := save_precedes_add_actions (fun _ _ => StoreResult.found true)
    {
      props := ["p"],
      AddActions := [("p", [Action.setID "q"])],
      RemoveActions := [("p", [])] } "p" "x" rfl
  exact ⟨h.1, h.2 1 (Action.setID "q") (by decide)⟩

/-- The per-property merge of `trackRefs` throws as soon as one listed
property has no prior action list. -/
theorem mergeActs_error_of_not_tracked :
    ∀ (props : List String) (prevMap : ActionMap) (acts : List Action)
      (e : String), e ∈ props → getActs prevMap e = none →
      mergeActs prevMap acts props = Except.error JsError.typeError := by
  intro props
  induction props with
  | nil => intro _ _ _ he _; exact absurd he (List.not_mem_nil _)
  | cons f rest ih =>
    intro prevMap acts e he hnone
    unfold mergeActs
    rcases hf : getActs prevMap f with _ | l
    · rfl
    · have hef : e ≠ f := by
        rintro rfl
        rw [hnone] at hf
        exact Option.noConfusion hf
      have he' : e ∈ rest := by
        rcases List.mem_cons.mp he with h | h
        · exact absurd h hef
        · exact h
      rw [ih prevMap acts e he' hnone]

/-- C10: calling `trackRefs` on a class that already has a reference
registry with a listed property the prior registry does not track makes the
whole call throw (the TypeError from `undefined.concat`) instead of
installing any registry: extending an existing registry with a brand-new
property is not supported. -/
theorem trackRefs_new_prop_on_existing_registry_errors :
    ∀ (prev : RefProps) (props : List String)
      (addActions removeActions : List Action) (e : String),
      e ∈ props → getActs prev.AddActions e = none →
      trackRefs (some prev) props addActions removeActions =
        Except.error JsError.typeError := by
  intro prev props addActions removeActions e he hnone
  have h1 := mergeActs_error_of_not_tracked props prev.AddActions addActions e he hnone
  simp only [trackRefs, h1]

/-- Witness for C10: a class tracking only "a" cannot be extended with the
new property "b" — the merge throws. -/
theorem trackRefs_new_prop_on_existing_registry_errors_witness :
    trackRefs (some {
        props := ["a"],
        AddActions := [("a", [Action.setID "q"])],
        RemoveActions := [("a", [Action.unsetID "q"])] })
      ["b"] [Action.appendID "r"] [Action.removeID "r"] =
      Except.error JsError.typeError :=
  trackRefs_new_prop_on_existing_registry_errors
    {
      props := ["a"],
      AddActions := [("a", [Action.setID "q"])],
      RemoveActions := [("a", [Action.unsetID "q"])] }
    ["b"] [Action.appendID "r"] [Action.removeID "r"] "b"
    (by decide) (by decide)

/-- C2 (code-bug evidence): on a class with NO prior registry, `trackRefs`
registers the add-action list as the remove-actions as well — the source
falls back to `addActions` instead of `removeActions` — so the claimed
"remove-actions = prior (empty) ++ passed removeActions" fails; with a
prior registry the merge does append the passed removeActions. -/
theorem trackRefs_fresh_registry_remove_fallback_bug :
    ((trackRefs none ["p"] [Action.setID "q"] [Action.deleteItem]).map
        (fun rp => (getActs rp.AddActions "p", getActs rp.RemoveActions "p")) =
      Except.ok (some [Action.setID "q"], some [Action.setID "q"])) ∧
    ([Action.setID "q"] : List Action) ≠ [Action.deleteItem] ∧
    ((trackRefs (some {
          props := ["p"],
          AddActions := [("p", [Action.setID "q"])],
          RemoveActions := [("p", [Action.unsetID "q"])] })
        ["p"] [Action.setID "q"] [Action.deleteItem]).map
        (fun rp => getActs rp.RemoveActions "p") =
      Except.ok (some [Action.unsetID "q", Action.deleteItem])) := by
  exact ⟨rfl, by decide, rfl⟩

/-- C5 (code-bug evidence): `belongsToMany` passes add-actions
`[SetID(prop2)]` and remove-actions `[DeleteItem]` or `[RemoveID(prop2)]`
(not the spec's `UnsetID`), and on a class with no prior registry the
`trackRefs` fallback registers the add-action list `[SetID(prop2)]` as the
remove-actions in both cases. -/
theorem belongsToMany_registered_actions_bug :
    ((belongsToMany none "p1" "p2" true).map
        (fun rp => (getActs rp.AddActions "p1", getActs rp.RemoveActions "p1")) =
      Except.ok (some [Action.setID "p2"], some [Action.setID "p2"])) ∧
    ((belongsToMany none "p1" "p2" false).map
        (fun rp => getActs rp.RemoveActions "p1") =
      Except.ok (some [Action.setID "p2"])) ∧
    ([Action.setID "p2"] : List Action) ≠ [Action.deleteItem] ∧
    ([Action.setID "p2"] : List Action) ≠ [Action.unsetID "p2"] ∧
    (if false then Action.deleteItem else Action.removeID "p2") ≠
      Action.unsetID "p2" := by
  exact ⟨rfl, rfl, by decide, by decide, by decide⟩

/-- C6 (code-bug evidence): `connect` builds exactly the add-action and
remove-action lists the claim states and passes them to `trackRefs`, but on
a model with no prior registry the `trackRefs` fallback registers the
add-action list as the remove-actions: the installed registry entry has
remove-actions `[SetID("p2")]` instead of `[UnsetID("p2")]`. -/
theorem connect_registered_remove_actions_bug :
    (connectAddActions { meta := fun _ => false, registry := none }
        (some "p2") = [Action.setID "p2"]) ∧
    (connectRemoveActions (some "p2") false = [Action.unsetID "p2"]) ∧
    ((connect { meta := fun _ => false, registry := none } "p1"
          { meta := fun _ => false, registry := none } (some "p2")
          false true).reg1.map (fun rp => getActs rp.RemoveActions "p1") =
      some (some [Action.setID "p2"])) ∧
    ((connect { meta := fun _ => false, registry := none } "p1"
          { meta := fun _ => false, registry := none } (some "p2")
          false true).reg1.map (fun rp => getActs rp.AddActions "p1") =
      some (some [Action.setID "p2"])) ∧
    ([Action.setID "p2"] : List Action) ≠ [Action.unsetID "p2"] := by
  exact ⟨by decide, by decide, by decide, by decide, by decide⟩

/-- The per-property merge can only throw the TypeError. -/
theorem mergeActs_error_eq_typeError :
    ∀ (props : List String) (m : ActionMap) (acts : List Action)
      (err : JsError),
      mergeActs m acts props = Except.error err → err = JsError.typeError := by
  intro props
  induction props with
  | nil =>
    intro m acts err h
    simp only [mergeActs] at h
    exact Except.noConfusion h
  | cons f rest ih =>
    intro m acts err h
    rcases hf : getActs m f with _ | l
    · simp only [mergeActs, hf] at h
      exact (Except.error.inj h).symm
    · simp only [mergeActs, hf] at h
      rcases hm : mergeActs m acts rest with err2 | tail
      · simp only [hm] at h
        rw [← Except.error.inj h]
        exact ih m acts err2 hm
      · simp only [hm] at h
        exact Except.noConfusion h

/-- Lemma: `trackRefs` can only throw the TypeError (never `InvalidParameters`). -/
theorem trackRefs_error_eq_typeError :
    ∀ (prev : Option RefProps) (props : List String)
      (addActions removeActions : List Action) (err : JsError),
      trackRefs prev props addActions removeActions = Except.error err →
      err = JsError.typeError := by
  intro prev props addActions removeActions err h
  cases prev with
  | none =>
    simp only [trackRefs] at h
    exact Except.noConfusion h
  | some prev =>
    simp only [trackRefs] at h
    rcases hm1 : mergeActs prev.AddActions addActions props with err1 | addMap
    · simp only [hm1] at h
      rw [← Except.error.inj h]
      exact mergeActs_error_eq_typeError props prev.AddActions addActions
        err1 hm1
    · simp only [hm1] at h
      rcases hm2 : mergeActs prev.RemoveActions removeActions props
        with err2 | removeMap
      · simp only [hm2] at h
        rw [← Except.error.inj h]
        exact mergeActs_error_eq_typeError props prev.RemoveActions
          removeActions err2 hm2
      · simp only [hm2] at h
        exact Except.noConfusion h

/-- C7: `connect` throws `InvalidParameters` exactly when it is given an
array-typed reciprocal property together with `deleteOnRemove`; the check
happens synchronously at declaration time, before any registration, so in
that case both models keep their prior registries untouched. -/
theorem connect_invalidParameters_iff :
    ∀ (model1 : Model) (prop1 : String) (model2 : Model)
      (prop2 : Option String) (deleteOnRemove noRecurse : Bool),
      ((connect model1 prop1 model2 prop2 deleteOnRemove noRecurse).error =
          some JsError.invalidParameters ↔
        (reciprocalIsArray model2 prop2 && deleteOnRemove) = true) ∧
      ((reciprocalIsArray model2 prop2 && deleteOnRemove) = true →
        (connect model1 prop1 model2 prop2 deleteOnRemove noRecurse).reg1 =
            model1.registry ∧
          (connect model1 prop1 model2 prop2 deleteOnRemove noRecurse).reg2 =
            model2.registry) := by
  intro m1 p1 m2 p2 d nr
  by_cases hc : (reciprocalIsArray m2 p2 && d) = true
  · have hcon : connect m1 p1 m2 p2 d nr =
        { reg1 := m1.registry, reg2 := m2.registry,
          error := some JsError.invalidParameters } := by
      unfold connect
      rw [if_pos hc]
    rw [hcon]
    exact ⟨⟨fun _ => hc, fun _ => rfl⟩, fun _ => ⟨rfl, rfl⟩⟩
  · have herr : (connect m1 p1 m2 p2 d nr).error ≠
        some JsError.invalidParameters := by
      unfold connect
      rw [if_neg hc]
      rcases h1 : trackRefs m1.registry [p1] (connectAddActions m2 p2)
          (connectRemoveActions p2 d) with err | rp1
      · have he := trackRefs_error_eq_typeError _ _ _ _ _ h1
        subst he
        simp [h1]
      · rcases p2 with _ | p2
        · simp [h1]
        · cases nr with
          | true => simp [h1]
          | false =>
            rcases h2 : trackRefs m2.registry [p2]
                (connectAddActions m1 (some p1))
                (connectRemoveActions (some p1) false) with err2 | rp2
            · have he := trackRefs_error_eq_typeError _ _ _ _ _ h2
              subst he
              simp [h1, h2]
            · simp [h1, h2]
    exact ⟨⟨fun h => absurd h herr, fun h => absurd h hc⟩, fun h => absurd h hc⟩

/-- Witness for C7: an array-typed reciprocal property together with
`deleteOnRemove` makes `connect` report `InvalidParameters` and leaves both
(empty) registries unregistered. -/
theorem connect_invalidParameters_iff_witness :
    ((connect { meta := fun _ => false, registry := none } "p1"
        { meta := fun _ => true, registry := none } (some "p2")
        true false).error = some JsError.invalidParameters) ∧
    ((connect { meta := fun _ => false, registry := none } "p1"
        { meta := fun _ => true, registry := none } (some "p2")
        true false).reg1 = none) ∧
    ((connect { meta := fun _ => false, registry := none } "p1"
        { meta := fun _ => true, registry := none } (some "p2")
        true false).reg2 = none) := by
  have h := connect_invalidParameters_iff
    { meta := fun _ => false, registry := none } "p1"
    { meta := fun _ => true, registry := none } (some "p2") true false
  exact ⟨h.1.mpr (by decide), (h.2 (by decide)).1, (h.2 (by decide)).2⟩

/-! ### Helper lemmas about the search-index state merge -/

theorem getProp_setProp_self (st : State) (e : String) (v : Value) :
    getProp (setProp st e v) e = v := by
  induction st with
  | nil => simp [setProp, getProp]
  | cons kv rest ih =>
    obtain ⟨k, w⟩ := kv
    by_cases hk : k = e
    · simp [setProp, hk, getProp]
    · simp [setProp, hk, getProp, ih]

theorem getProp_setProp_ne (st : State) (e e' : String) (v : Value)
    (h : e ≠ e') : getProp (setProp st e v) e' = getProp st e' := by
  induction st with
  | nil => simp [setProp, getProp, h]
  | cons kv rest ih =>
    obtain ⟨k, w⟩ := kv
    by_cases hk : k = e
    · subst hk
      simp [setProp, getProp, h]
    · simp [setProp, hk, getProp, ih]

theorem hasProp_setProp_self (st : State) (e : String) (v : Value) :
    hasProp (setProp st e v) e = true := by
  induction st with
  | nil => simp [setProp, hasProp]
  | cons kv rest ih =>
    obtain ⟨k, w⟩ := kv
    by_cases hk : k = e
    · simp [setProp, hk, hasProp]
    · simp [setProp, hk, hasProp, ih]

theorem hasProp_setProp_ne (st : State) (e e' : String) (v : Value)
    (h : e ≠ e') : hasProp (setProp st e v) e' = hasProp st e' := by
  induction st with
  | nil => simp [setProp, hasProp, h]
  | cons kv rest ih =>
    obtain ⟨k, w⟩ := kv
    by_cases hk : k = e
    · subst hk
      simp [setProp, hasProp, h]
    · simp [setProp, hk, hasProp, ih]

theorem mergeState_cons (f : String) (rest : List String) (x prev : State) :
    mergeState (f :: rest) x prev =
      mergeState rest (if hasProp x f then x else setProp x f (getProp prev f))
        prev := rfl

/-- A property present in the candidate state is untouched by the merge
loop: the candidate's own value wins. -/
theorem mergeState_preserves_present :
    ∀ (props : List String) (x prev : State) (e : String),
      hasProp x e = true →
      hasProp (mergeState props x prev) e = true ∧
      getProp (mergeState props x prev) e = getProp x e := by
  intro props
  induction props with
  | nil => intro x prev e h; exact ⟨h, rfl⟩
  | cons f rest ih =>
    intro x prev e h
    rw [mergeState_cons]
    by_cases hf : hasProp x f = true
    · rw [if_pos hf]
      exact ih x prev e h
    · rw [if_neg hf]
      have hfe : f ≠ e := by
        rintro rfl
        exact hf h
      have h1 : hasProp (setProp x f (getProp prev f)) e = true := by
        rw [hasProp_setProp_ne x f e _ hfe]
        exact h
      have h2 := ih (setProp x f (getProp prev f)) prev e h1
      exact ⟨h2.1, by rw [h2.2, getProp_setProp_ne x f e _ hfe]⟩

/-- An indexed property absent from the candidate state is filled in from
the previously persisted state by the merge loop. -/
theorem mergeState_fills_absent :
    ∀ (props : List String) (x prev : State) (e : String),
      e ∈ props → hasProp x e = false →
      getProp (mergeState props x prev) e = getProp prev e := by
  intro props
  induction props with
  | nil => intro _ _ _ he _; exact absurd he (List.not_mem_nil _)
  | cons f rest ih =>
    intro x prev e he h
    rw [mergeState_cons]
    by_cases hfe : f = e
    · subst hfe
      rw [if_neg (by rw [h]; exact Bool.false_ne_true)]
      have h2 := mergeState_preserves_present rest
        (setProp x f (getProp prev f)) prev f (hasProp_setProp_self x f _)
      rw [h2.2, getProp_setProp_self]
    · have he' : e ∈ rest := by
        rcases List.mem_cons.mp he with h' | h'
        · exact absurd h'.symm hfe
        · exact h'
      by_cases hf : hasProp x f = true
      · rw [if_pos hf]
        exact ih x prev e he' h
      · rw [if_neg hf]
        have h1 : hasProp (setProp x f (getProp prev f)) e = false := by
          rw [hasProp_setProp_ne x f e _ hfe]
          exact h
        exact ih (setProp x f (getProp prev f)) prev e he' h1

/-- C9: on an update where some indexed property is dirty, the search index
adapter feeds the indexer the candidate new state with every indexed
property absent from the candidate filled in from the previously persisted
state read via the transaction, and upserts the entry whose tokens are
derived (via the external tokenizer) from that merged state — so updating
only one indexed property still indexes the persisted values of the
others. -/
theorem updateInTxn_merges_persisted :
    ∀ (tokenize : String → List (List String)) (props : List String)
      (item : SearchItem) (newState : State),
      item.searchIndexProps_ = some (indexForSearch tokenize none props) →
      props.any item.didUpdate = true →
      (updateInTxn item newState =
        some (createIndexEntry tokenize props
          (mergeState props newState item.persisted) none)) ∧
      (∀ e ∈ props, hasProp newState e = false →
        getProp (mergeState props newState item.persisted) e =
          getProp item.persisted e) ∧
      (∀ e, hasProp newState e = true →
        getProp (mergeState props newState item.persisted) e =
          getProp newState e) := by
  intro tokenize props item newState hsp hdirty
  refine ⟨?_, ?_, ?_⟩
  · simp only [updateInTxn, hsp, indexForSearch, hdirty, if_true,
      Option.map_none']
  · intro e he h
    exact mergeState_fills_absent props newState item.persisted e he h
  · intro e h
    exact (mergeState_preserves_present props newState item.persisted e h).2

/-- Tokenizer used by the C9 witness: the whole text as one token. -/
def sampleTokenize : String → List (List String) := fun s => [[s]]

/-- Search registry of the C9 witness: one `indexForSearch` declaration on
properties title and body. -/
def sampleSearchRegistry : SearchProps :=
  indexForSearch sampleTokenize none ["title", "body"]

/-- Item of the C9 witness: persisted title "Foo Bar", with only body
dirty. -/
def sampleSearchItem : SearchItem where
  searchIndexProps_ := some sampleSearchRegistry
  didUpdate := fun e => e == "body"
  persisted := [("title", Value.scalar "Foo Bar")]

/-- Witness for C9: updating only `body` still tokenizes the persisted
`title` merged with the new `body`. -/
theorem updateInTxn_merges_persisted_witness :
    updateInTxn sampleSearchItem [("body", Value.scalar "baz")] =
      some { tokens := ["Foo Bar baz"] } ∧
    getProp (mergeState ["title", "body"] [("body", Value.scalar "baz")]
        sampleSearchItem.persisted) "title" = Value.scalar "Foo Bar" := by
  have h := updateInTxn_merges_persisted sampleTokenize ["title", "body"]
    sampleSearchItem [("body", Value.scalar "baz")] rfl (by decide)
  refine ⟨?_, h.2.1 "title" (by decide) (by decide)⟩
  rw [h.1]
  decide

end RC
